import Mathlib

/-!
Verification of the outcome-sharing, configuration, retry, session-bootstrap,
fixture-resolution and test-data subsystems of the QA_Assignment repository.

Each definition is a shallow embedding of a concrete JavaScript function of
the repository (file and function named in its doc comment).  JSON
serialization is modelled abstractly: a well-formed file holds the written
record itself, and a `corrupt` token stands for any byte string that
`JSON.parse` rejects.
-/

namespace QA

/-- JavaScript-style JSON scalar values stored in the outcome record. -/
inductive JVal : Type
  | vnull : JVal
  | vbool : Bool → JVal
  | vnum : Int → JVal
  | vstr : String → JVal
  deriving DecidableEq, Repr

/-- JavaScript truthiness of a `JVal` (`null`, `false`, `0`, `""` are falsy). -/
def JVal.truthy : JVal → Bool
  | .vnull => false
  | .vbool b => b
  | .vnum n => n != 0
  | .vstr s => s != ""

/-- An outcome record: a JS object, i.e. a finite string-keyed map. -/
abbrev Record := List (String × JVal)

/-- Content of the outcome file: well-formed JSON of a record, or bytes that
`JSON.parse` rejects (e.g. after a crash mid-write). -/
inductive FileContent : Type
  | good : Record → FileContent
  | corrupt : FileContent
  deriving DecidableEq, Repr

/-- Filesystem state seen by `utils/outcomeHelper.js`: whether the `temp`
directory exists, the content of `temp/testData.json` (if present), and
whether the location is writable. -/
structure FS : Type where
  dirExists : Bool
  file : Option FileContent
  writable : Bool
  deriving DecidableEq, Repr

/-- Errors surfaced by the store operations. -/
inductive StoreErr : Type
  | ioError    -- `fs.mkdirSync` / `fs.writeFileSync` failure
  | parseError -- `JSON.parse` SyntaxError
  deriving DecidableEq, Repr

/-- `writeTestData(data)` from `utils/outcomeHelper.js`: creates the `temp`
directory if absent, then rewrites the whole file with
`JSON.stringify(data)`.  An unwritable location makes `mkdirSync` /
`writeFileSync` throw, which we model as `IOError` with the state
unchanged. -/
def writeTestData (fs : FS) (data : Record) : Except StoreErr FS :=
  if fs.writable then
    .ok { dirExists := true, file := some (.good data), writable := fs.writable }
  else
    .error .ioError

/-- `readTestData()` from `utils/outcomeHelper.js`: returns `{}` when the file
does not exist, otherwise `JSON.parse` of its bytes — which throws a
SyntaxError on corrupt content (there is no try/catch in the source). -/
def readTestData (fs : FS) : Except StoreErr Record :=
  match fs.file with
  | none => .ok []
  | some (.good r) => .ok r
  | some .corrupt => .error .parseError

/-- JS property lookup `record[key]` with absence as `undefined` (`none`). -/
def Record.lookup (r : Record) (k : String) : Option JVal :=
  List.lookup k r

/-- Runs a sequence of `writeTestData` calls from an initial state; a throw
aborts the sequence. -/
def writeSeq (fs : FS) : List Record → Except StoreErr FS
  | [] => .ok fs
  | d :: ds => do
    let fs' ← writeTestData fs d
    writeSeq fs' ds

/-- The empty outcome store at process start: no `temp` directory, no file,
writable location. -/
def emptyStore : FS := { dirExists := false, file := none, writable := true }

/-- The filesystem state after a successful `writeTestData(d)` on a writable
location: directory present, file holding exactly `JSON.stringify(d)`. -/
def writtenState (d : Record) : FS :=
  { dirExists := true, file := some (.good d), writable := true }

/-- A store whose file holds bytes that `JSON.parse` rejects. -/
def corruptStore : FS :=
  { dirExists := true, file := some .corrupt, writable := true }

/-- The skip condition of the "Logout after Login" test in the login spec
file: `test.skip(!testData.loginSuccess, ...)` — the body is skipped exactly
when the value read for `loginSuccess` is falsy/absent. -/
def logoutSkipped (data : Record) : Bool :=
  ! (match data.lookup "loginSuccess" with
     | none => false
     | some v => v.truthy)

/-! ### Bounded retry — `BasePage.retryAction` in `utils/setConfig.js`

```js
async retryAction(action, maxRetries = 3, delay = 1000) {
  for (let i = 0; i < maxRetries; i++) {
    try { await action(); return; }
    catch (error) {
      this.logger.warn(...);
      if (i === maxRetries - 1) throw error;
      await this.page.waitForTimeout(delay);
    }
  }
}
```

The action is modelled as a function from the attempt index (the value of
`i` at that invocation) to success or an error.  The embedding returns the
overall outcome together with the number of times the action was invoked.
-/

/-- The `for` loop of `retryAction` from iteration `i`, with `rem` iterations
remaining (`rem = maxRetries - i`).  Returns the outcome and the invocation
count contributed by the remaining iterations. -/
def retryLoop {E : Type} (action : Nat → Except E Unit) :
    Nat → Nat → Except E Unit × Nat
  | _, 0 => (.ok (), 0)
  | i, rem + 1 =>
    match action i with
    | .ok _ => (.ok (), 1)
    | .error e =>
      if rem = 0 then (.error e, 1)
      else
        let p := retryLoop action (i + 1) rem
        (p.1, p.2 + 1)

/-- `BasePage.retryAction`: run the loop from `i = 0`; falling out of the
loop (`maxRetries = 0`) returns normally. -/
def retryAction {E : Type} (action : Nat → Except E Unit) (maxRetries : Nat) :
    Except E Unit × Nat :=
  retryLoop action 0 maxRetries

/-! ### Settings loading

Three loaders read `settings.json`.  A missing file, unparseable content, or
a parsed JS object with some keys absent are modelled by `SettingsFile`;
a parsed object is a triple of optional string values (absent key = `none`).
-/

/-- A parsed settings object: each recognized key present or absent. -/
structure Settings : Type where
  executionMode : Option String
  browserMode : Option String
  environment : Option String
  deriving DecidableEq, Repr

/-- State of `settings.json` on disk. -/
inductive SettingsFile : Type
  | absent : SettingsFile
  | unparseable : SettingsFile
  | parsed : Settings → SettingsFile
  deriving DecidableEq, Repr

/-- JS spread merge `{ ...d, ...p }` on settings objects: a key present in
`p` overrides only itself. -/
def mergeSettings (d p : Settings) : Settings :=
  { executionMode := p.executionMode.orElse fun _ => d.executionMode
    browserMode := p.browserMode.orElse fun _ => d.browserMode
    environment := p.environment.orElse fun _ => d.environment }

/-- `defaultSettings` from `utils/setConfig.js`
(`{executionMode: "parallel", browserMode: "headless", environment: "staging"}`). -/
def defaultSettings : Settings :=
  { executionMode := some "parallel", browserMode := some "headless",
    environment := some "staging" }

/-- `loadSettings()` from `utils/setConfig.js`: missing file or parse error
falls back to `defaultSettings`; a parsed file is spread-merged over the
defaults (`{ ...defaultSettings, ...JSON.parse(content) }`). -/
def loadSettings (f : SettingsFile) : Settings :=
  match f with
  | .absent => defaultSettings
  | .unparseable => defaultSettings
  | .parsed p => mergeSettings defaultSettings p

/-- The settings computation of the `part_006` Playwright config: same
initial object (with `environment: "staging"`) and the same spread merge
`settings = { ...settings, ...JSON.parse(content) }`; a parse error leaves
the defaults in place. -/
def settingsPart006 (f : SettingsFile) : Settings :=
  match f with
  | .absent => defaultSettings
  | .unparseable => defaultSettings
  | .parsed p => mergeSettings defaultSettings p

/-- The initial `settings` literal of the `part_007` Playwright config:
`{ executionMode: "parallel", browserMode: "headless" }` — no `environment`
key. -/
def defaultsPart007 : Settings :=
  { executionMode := some "parallel", browserMode := some "headless",
    environment := none }

/-- The settings computation of the `part_007` Playwright config: on a
successful parse the whole object is replaced
(`settings = JSON.parse(content)`), with no per-key merge; a missing file or
parse error keeps the initial literal. -/
def settingsPart007 (f : SettingsFile) : Settings :=
  match f with
  | .absent => defaultsPart007
  | .unparseable => defaultsPart007
  | .parsed p => p

/-! ### Session bootstrap — the `global-setup` module at the end of
`utils/apiHelper.js`

```js
module.exports = async () => {
  const browser = await chromium.launch();
  const context = await browser.newContext();
  const page = await context.newPage();
  await page.goto(process.env.BASE_URL);
  await page.click('a[href="/login"]');
  await page.fill('input[name="email"]', process.env.LOGIN_EMAIL);
  await page.fill('input[name="password"]', process.env.LOGIN_PASSWORD);
  await page.click('button[type="submit"]');
  const storageDir = path.resolve(__dirname, "storageState");
  if (!fs.existsSync(storageDir)) fs.mkdirSync(storageDir);
  await context.storageState({ path: ... });
  await browser.close();
};
```

The browser is an external collaborator; it is modelled as an oracle giving
each UI interaction's outcome and the session state `storageState()` would
capture.  Crucially, the script passes the credential strings into `fill`
but never branches on whether they authenticate, and performs no wait or
assertion between the submit click and the snapshot capture.
-/

/-- The five UI interactions the bootstrap script performs, in program
order. -/
inductive UIStep : Type
  | goto | clickLoginLink | fillEmail | fillPassword | clickSubmit
  deriving DecidableEq, Repr

/-- The serialized session state `context.storageState()` captures
(cookie name/value pairs; per-origin storage is irrelevant to the claims). -/
structure SessionState : Type where
  cookies : List (String × String)
  deriving DecidableEq, Repr

/-- Environment configuration consumed by the bootstrap.  `credsValid`
records whether the email/password pair actually authenticates on the target
site; the script itself only forwards the strings. -/
structure BootEnv : Type where
  baseUrl : String
  loginEmail : String
  loginPassword : String
  credsValid : Bool
  deriving DecidableEq, Repr

/-- The browser collaborator: whether each UI interaction completes without
throwing (selector found, navigation within timeout), and the session state
a `storageState()` call would capture. -/
structure Browser : Type where
  stepOk : UIStep → Bool
  sessionState : SessionState

/-- Filesystem state touched by the bootstrap: the `storageState` directory
and the `storageState.json` snapshot file. -/
structure BootFS : Type where
  storageDirExists : Bool
  snapshot : Option SessionState
  deriving DecidableEq, Repr

/-- A failed UI interaction, carrying the step that threw. -/
inductive BootErr : Type
  | stepFailed : UIStep → BootErr
  deriving DecidableEq, Repr

/-- One `await page.…` interaction: throws iff the browser reports failure. -/
def runStep (b : Browser) (s : UIStep) : Except BootErr Unit :=
  if b.stepOk s then .ok () else .error (.stepFailed s)

/-- The five interactions in program order. -/
def uiSteps : List UIStep :=
  [.goto, .clickLoginLink, .fillEmail, .fillPassword, .clickSubmit]

/-- Sequential execution of the `await page.…` lines: the first throw aborts
the rest. -/
def runSteps (b : Browser) : List UIStep → Except BootErr Unit
  | [] => .ok ()
  | s :: ss =>
    match runStep b s with
    | .ok _ => runSteps b ss
    | .error e => .error e

/-- The `global-setup` script: runs the five UI steps in order (any throw
aborts the whole setup before the snapshot is touched, leaving the
filesystem as it was), then creates the storage directory if absent and
writes the captured session state.  The environment's credentials are
forwarded into the fill steps but the script never inspects whether they
authenticate. -/
def globalSetup (_env : BootEnv) (b : Browser) (fs : BootFS) :
    Except BootErr Unit × BootFS :=
  match runSteps b uiSteps with
  | .error e => (.error e, fs)
  | .ok _ =>
    (.ok (), { storageDirExists := true, snapshot := some b.sessionState })

/-- An environment whose credential pair does not authenticate. -/
def invalidEnv : BootEnv :=
  { baseUrl := "https://staging.example.com", loginEmail := "bad@example.com",
    loginPassword := "wrong", credsValid := false }

/-- The session state captured in the demonstration runs. -/
def demoSession : SessionState := ⟨[("auth_token", "t1")]⟩

/-- A browser on which every form interaction succeeds — the login page's
selectors all exist whether or not the submitted credentials authenticate,
the server merely rendering an error message after the submit. -/
def okBrowser : Browser := ⟨fun _ => true, demoSession⟩

/-- A browser on which the submit button is never found (selector timeout). -/
def failBrowser : Browser :=
  ⟨fun s => match s with | .clickSubmit => false | _ => true, demoSession⟩

/-! ### Test-data validation — `TestDataManager.validateUserData` in
`utils/testDataManager.js`

A user object is modelled with the four checked fields as optional strings
(`none` = property absent/`undefined`).  JS falsiness of a string value is
emptiness.  The email regex `/^[^\s@]+@[^\s@]+\.[^\s@]+$/` is embedded as an
executable matcher over the character list, with `\s` the ECMAScript class
(WhiteSpace and LineTerminator code points).
-/

/-- A user record as stored in `testData/users.json`. -/
structure User : Type where
  email : Option String
  password : Option String
  firstName : Option String
  lastName : Option String
  deriving DecidableEq, Repr

/-- JS truthiness of an optional string property (`undefined` and `""` are
falsy). -/
def fieldTruthy : Option String → Bool
  | none => false
  | some s => s != ""

/-- The ECMAScript `\s` class: WhiteSpace (tab, vertical tab, form feed,
space, no-break space, zero-width no-break space, and the Unicode
Space_Separator category) together with LineTerminator (LF, CR, line
separator, paragraph separator). -/
def jsWhitespace (c : Char) : Bool :=
  let n := c.toNat
  (0x09 ≤ n && n ≤ 0x0D) || n == 0x20 || n == 0xA0 || n == 0x1680 ||
    (0x2000 ≤ n && n ≤ 0x200A) || n == 0x2028 || n == 0x2029 ||
    n == 0x202F || n == 0x205F || n == 0x3000 || n == 0xFEFF

/-- A character matched by `[^\s@]`: not JS whitespace and not `@`. -/
def emailChar (c : Char) : Bool :=
  !jsWhitespace c && c != '@'

/-- `emailRegex.test(s)` for `/^[^\s@]+@[^\s@]+\.[^\s@]+$/`: a nonempty
`[^\s@]` run, one `@`, then a tail of `[^\s@]` characters containing a `.`
that is neither its first nor its last character. -/
def emailTest (s : String) : Bool :=
  let cs := s.toList
  let l := cs.takeWhile (fun c => c ≠ '@')
  match cs.dropWhile (fun c => c ≠ '@') with
  | [] => false
  | _ :: rest =>
    !l.isEmpty && l.all emailChar && rest.all emailChar &&
      ((rest.drop 1).dropLast.contains '.')

/-- The `{valid, errors}` object returned by the validators. -/
structure ValidationResult : Type where
  valid : Bool
  errors : List String
  deriving DecidableEq, Repr

/-- `TestDataManager.validateUserData(user)`: first the required-fields
filter (returning a single joined message when any of the four is falsy),
then the email-format and password-length checks accumulated in order. -/
def validateUserData (u : User) : ValidationResult :=
  let required : List (String × Option String) :=
    [("email", u.email), ("password", u.password),
     ("firstName", u.firstName), ("lastName", u.lastName)]
  let missingFields := (required.filter (fun p => !fieldTruthy p.2)).map Prod.fst
  if missingFields.isEmpty then
    let errors :=
      (if emailTest (u.email.getD "") then [] else ["Invalid email format"]) ++
      (if (u.password.getD "").length < 8 then
        ["Password must be at least 8 characters long"] else [])
    { valid := errors.isEmpty, errors := errors }
  else
    { valid := false,
      errors := ["Missing required fields: " ++
        String.intercalate ", " missingFields] }

/-! ### Fixture resolution

`fixtures/customFixtures.js` registers fixtures with `base.extend({...})`;
each fixture names its dependencies in its destructured parameter list
(e.g. `authenticatedUser: async ({ page, apiHelper }, use) => ...`).  The
resolution algorithm itself lives in the Playwright test runner, outside
this repository.
-/

/-- A fixture dependency graph: each registered fixture name with the names
it depends on. -/
abbrev FixtureGraph := List (String × List String)

/-- The error raised on an unresolvable dependency graph. -/
inductive CycleError : Type
  | cycleError
  deriving DecidableEq, Repr

/-- The dependency list a graph declares for a fixture name. -/
def depsOf (g : FixtureGraph) (n : String) : List String :=
  (List.lookup n g).getD []

/-- First pending fixture all of whose dependencies are already resolved,
together with the remaining pending fixtures. -/
def extractReady (order : List String) :
    FixtureGraph → Option ((String × List String) × FixtureGraph)
  | [] => none
  | q :: rest =>
    if q.2.all (fun d => order.contains d) then some (q, rest)
    else
      match extractReady order rest with
      | none => none
      | some (p, rem) => some (p, q :: rem)

/-- Modelled from the spec: the Playwright fixture resolver is not part of
this repository (only its registration calls in
`fixtures/customFixtures.js` are), so resolution is modelled from §4.3 of
the spec: repeatedly instantiate a fixture whose dependencies are all
already set up; if none exists while fixtures remain, fail with
`CycleError`.  The fuel argument makes exhaustion of pending fixtures
explicit. -/
def resolveLoop : Nat → FixtureGraph → List String → Except CycleError (List String)
  | 0, pending, order =>
    if pending.isEmpty then .ok order else .error .cycleError
  | fuel + 1, pending, order =>
    if pending.isEmpty then .ok order
    else
      match extractReady order pending with
      | none => .error .cycleError
      | some (p, rem) => resolveLoop fuel rem (order ++ [p.1])

/-- Modelled from the spec: resolve a whole fixture graph (a test's request
restricts the registry to the fixtures it reaches) into a setup order, or
fail with `CycleError`. -/
def resolveFixtures (g : FixtureGraph) : Except CycleError (List String) :=
  resolveLoop g.length g []

/-- `l` is a valid setup order, continuing after the already-set-up prefix
`pre`: each fixture's declared dependencies are set up strictly before it. -/
def TopoOrderedFrom (g : FixtureGraph) : List String → List String → Prop
  | _, [] => True
  | pre, n :: rest =>
    (∀ d ∈ depsOf g n, d ∈ pre) ∧ TopoOrderedFrom g (pre ++ [n]) rest

/-- `l` is a valid setup order for graph `g`: every fixture's declared
dependencies are set up strictly before it. -/
def TopoOrdered (g : FixtureGraph) (l : List String) : Prop :=
  TopoOrderedFrom g [] l

/-- The dependency graph of the fixtures registered in
`fixtures/customFixtures.js` that depend on one another (`authenticatedUser`
destructures `{ page, apiHelper }`, `apiHelper` destructures `{ baseURL }`). -/
def demoGraph : FixtureGraph :=
  [("baseURL", []), ("page", []), ("apiHelper", ["baseURL"]),
   ("authenticatedUser", ["page", "apiHelper"])]

/-! ### Deep copies — `TestDataManager.getUser` / `getProduct` in
`utils/testDataManager.js`

`loadTestData` parses a JSON file once and caches the resulting object;
`getUser`/`getProduct` navigate to `data[typeKey][index]` and return
`_.cloneDeep` of it.  To state that callers mutating the returned object
never change the cached data, JS objects are modelled explicitly as a heap
of addressed cells; a JSON value is a tree (`JTree`), arrays appearing as
objects indexed positionally.  `_.cloneDeep` on tree-shaped data reads the
object graph back into a tree and rebuilds it at fresh addresses. -/

/-- A parsed JSON value as a tree (arrays as field lists read positionally). -/
inductive JTree : Type
  | prim : JVal → JTree
  | obj : List (String × JTree) → JTree

/-- A heap value: a scalar or a reference to an object cell. -/
inductive HVal : Type
  | prim : JVal → HVal
  | ref : Nat → HVal
  deriving DecidableEq, Repr

/-- An object cell: its named fields. -/
abbrev Cell := List (String × HVal)

/-- The object heap: addressed cells, newest first. -/
abbrev Heap := List (Nat × Cell)

mutual

/-- Materialize a tree in the heap: children are allocated before their
parent, `n` being the next free address.  Returns the root value, the new
free-address counter and the extended heap. -/
def storeTree : JTree → Nat → Heap → HVal × Nat × Heap
  | .prim v, n, h => (.prim v, n, h)
  | .obj fs, n, h =>
    let r := storeFields fs n h
    (.ref r.2.1, r.2.1 + 1, (r.2.1, r.1) :: r.2.2)
  termination_by structural t _ _ => t

/-- Materialize the fields of an object in declaration order. -/
def storeFields : List (String × JTree) → Nat → Heap → Cell × Nat × Heap
  | [], n, h => ([], n, h)
  | (k, t) :: rest, n, h =>
    let r1 := storeTree t n h
    let r2 := storeFields rest r1.2.1 r1.2.2
    ((k, r1.1) :: r2.1, r2.2.1, r2.2.2)
  termination_by structural fs _ _ => fs

end

/-- Read a cell's field values with a given value reader. -/
def loadCellWith (f : HVal → Option JTree) : Cell → Option (List (String × JTree))
  | [] => some []
  | (k, v) :: rest =>
    match f v, loadCellWith f rest with
    | some t, some ts => some ((k, t) :: ts)
    | _, _ => none

/-- Read the value graph rooted at a heap value back into a tree, the fuel
bounding reference depth (`none` on dangling references or exhausted
fuel). -/
def loadVal (h : Heap) : Nat → HVal → Option JTree
  | _, .prim v => some (.prim v)
  | 0, .ref _ => none
  | fuel + 1, .ref a =>
    match List.lookup a h with
    | none => none
    | some cell => (loadCellWith (loadVal h fuel) cell).map .obj

/-- Read an object cell's fields back into subtrees. -/
def loadFields (h : Heap) (fuel : Nat) : Cell → Option (List (String × JTree)) :=
  loadCellWith (loadVal h fuel)

/-- A caller-side mutation of the object at address `a`: its cell is
replaced by arbitrary new content (covers setting, overwriting or deleting
any properties through a reference to it). -/
def mutateAt (h : Heap) (a : Nat) (cell : Cell) : Heap :=
  h.map fun e => if e.1 = a then (a, cell) else e

/-- `TestDataManager` state: the object heap, the next free address and the
`fileName -> parsed object` cache populated by `loadTestData`. -/
structure TDM : Type where
  heap : Heap
  fresh : Nat
  cache : List (String × HVal)

/-- A fresh manager (`new TestDataManager()`: empty cache). -/
def emptyTDM : TDM := ⟨[], 0, []⟩

/-- Errors thrown by the test-data manager. -/
inductive TDErr : Type
  | fileNotFound (name : String)
  | noEntries
  | indexOutOfRange
  | typeError
  deriving DecidableEq, Repr

/-- `TestDataManager.loadTestData(fileName)`: return the cached object if
present, otherwise parse the file (modelled by `files`), materialize it in
the heap, cache its root and return it; a missing file throws. -/
def loadTestData (files : String → Option JTree) (st : TDM) (name : String) :
    Except TDErr (HVal × TDM) :=
  match List.lookup name st.cache with
  | some v => .ok (v, st)
  | none =>
    match files name with
    | none => .error (.fileNotFound name)
    | some t =>
      let r := storeTree t st.fresh st.heap
      .ok (r.1, ⟨r.2.2, r.2.1, (name, r.1) :: st.cache⟩)

/-- The common body of `getUser` and `getProduct`: load the file's object,
navigate to `data[typeKey]`, check it is a nonempty array and the index in
range, then return `_.cloneDeep` of the element — its graph read back from
the heap and rebuilt at fresh addresses. -/
def getEntryClone (files : String → Option JTree) (fileName typeKey : String)
    (idx : Nat) (st : TDM) : Except TDErr (HVal × TDM) := do
  let (rootV, st1) ← loadTestData files st fileName
  match rootV with
  | .prim _ => .error .typeError
  | .ref a =>
    match List.lookup a st1.heap with
    | none => .error .typeError
    | some rootCell =>
      match List.lookup typeKey rootCell with
      | none => .error .noEntries
      | some (.prim _) => .error .noEntries
      | some (.ref b) =>
        match List.lookup b st1.heap with
        | none => .error .typeError
        | some arr =>
          if arr.isEmpty then .error .noEntries
          else if idx ≥ arr.length then .error .indexOutOfRange
          else
            match arr.get? idx with
            | none => .error .indexOutOfRange
            | some kv =>
              match loadVal st1.heap st1.fresh kv.2 with
              | none => .error .typeError
              | some t =>
                let r := storeTree t st1.fresh st1.heap
                .ok (r.1, ⟨r.2.2, r.2.1, st1.cache⟩)

/-- The `'valid' | 'invalid' | 'test' | 'bulk'` to collection-key mapping of
`getUser` (anything else falls back to `validUsers`). -/
def userTypeKey (type : String) : String :=
  if type = "valid" then "validUsers"
  else if type = "invalid" then "invalidUsers"
  else if type = "test" then "testUsers"
  else if type = "bulk" then "bulkUsers"
  else "validUsers"

/-- The type to collection-key mapping of `getProduct`. -/
def productTypeKey (type : String) : String :=
  if type = "valid" then "validProducts"
  else if type = "outOfStock" then "outOfStockProducts"
  else if type = "discounted" then "discountedProducts"
  else if type = "bulk" then "bulkProducts"
  else "validProducts"

/-- `TestDataManager.getUser(type, index)`. -/
def getUser (files : String → Option JTree) (type : String) (idx : Nat)
    (st : TDM) : Except TDErr (HVal × TDM) :=
  getEntryClone files "users" (userTypeKey type) idx st

/-- `TestDataManager.getProduct(type, index)`. -/
def getProduct (files : String → Option JTree) (type : String) (idx : Nat)
    (st : TDM) : Except TDErr (HVal × TDM) :=
  getEntryClone files "products" (productTypeKey type) idx st

/-- A one-user `testData/users.json` content for concrete runs. -/
def demoUsersTree : JTree :=
  .obj [("validUsers", .obj [("0", .obj [("email", .prim (.vstr "a@b.c"))])])]

/-- The test-data directory holding only that users file. -/
def demoFiles : String → Option JTree :=
  fun n => if n = "users" then some demoUsersTree else none

/-- The heap `getUser demoFiles "valid" 0` leaves behind: the stored users
object at addresses 0–2 and the clone of the requested user at address 3. -/
def demoHeap : Heap :=
  [(3, [("email", HVal.prim (JVal.vstr "a@b.c"))]),
   (2, [("validUsers", HVal.ref 1)]),
   (1, [("0", HVal.ref 0)]),
   (0, [("email", HVal.prim (JVal.vstr "a@b.c"))])]

/-- Every reference in a heap value points below `n`. -/
def ValBelow : HVal → Nat → Prop
  | .prim _, _ => True
  | .ref a, n => a < n

/-- Every reference in a cell points below `n`. -/
def CellBelow (c : Cell) (n : Nat) : Prop :=
  ∀ kv ∈ c, ValBelow kv.2 n

/-- Every reference in a heap value points at or above `n`. -/
def ValAtLeast : HVal → Nat → Prop
  | .prim _, _ => True
  | .ref a, n => n ≤ a

/-- Every reference in a cell points at or above `n`. -/
def CellAtLeast (c : Cell) (n : Nat) : Prop :=
  ∀ kv ∈ c, ValAtLeast kv.2 n

/-- A heap value that is a reference lying in `[lo, hi)`. -/
def ValWithin : HVal → Nat → Nat → Prop
  | .prim _, _, _ => True
  | .ref a, lo, hi => lo ≤ a ∧ a < hi

/-- All cell addresses of a heap lie below `n`. -/
def AddrsBelow (h : Heap) (n : Nat) : Prop :=
  ∀ e ∈ h, e.1 < n

/-- Every cell of the heap references only addresses below `n`. -/
def HeapClosedBelow (h : Heap) (n : Nat) : Prop :=
  ∀ e ∈ h, CellBelow e.2 n

/-- What `getUser`/`getProduct` returning `(c1, st1)` guarantees: for some
boundary `n1`, the returned copy lives entirely at addresses `≥ n1`
(its root reference and, the region being closed, everything reachable from
it), while the cached data lives below `n1`; hence replacing the cell at any
address `≥ n1` — any mutation a caller can perform through the returned
object — leaves the cached objects' values unchanged and a repeated call
returns a structurally identical tree. -/
def DeepCopyOutcome (call : TDM → Except TDErr (HVal × TDM))
    (c1 : HVal) (st1 : TDM) : Prop :=
  ∃ n1, n1 ≤ st1.fresh ∧
    ValAtLeast c1 n1 ∧
    (∀ a cell, List.lookup a st1.heap = some cell → n1 ≤ a → CellAtLeast cell n1) ∧
    ∀ a cell', n1 ≤ a →
      (∀ name v, List.lookup name st1.cache = some v →
        loadVal (mutateAt st1.heap a cell') st1.fresh v =
          loadVal st1.heap st1.fresh v) ∧
      ∃ c2 st2,
        call { st1 with heap := mutateAt st1.heap a cell' } = .ok (c2, st2) ∧
          loadVal st2.heap st2.fresh c2 = loadVal st1.heap st1.fresh c1

/-! ## Theorems -/

/-- C1 (counterexample): `writeTestData` does not merge.  Writing `{a: true}`
and then `{b: 2}` leaves a file holding only `{b: 2}` — the key `a` from the
earlier write does not survive, contrary to the claim. -/
theorem write_no_merge_counterexample :
    writeSeq emptyStore [[("a", .vbool true)], [("b", .vnum 2)]] =
      .ok (writtenState [("b", .vnum 2)]) ∧
    readTestData (writtenState [("b", .vnum 2)]) = .ok [("b", .vnum 2)] ∧
    Record.lookup [("b", .vnum 2)] "a" = none :=
  ⟨rfl, rfl, rfl⟩

/-- C1 (amended): `writeTestData` replaces the on-disk state with exactly
the given record (full-file rewrite — earlier keys are lost unless
re-included), creating the backing directory if absent, and fails with an
`IOError` when the location is not writable. -/
theorem writeTestData_overwrite_spec (fs : FS) (d : Record) :
    (fs.writable = true → writeTestData fs d = .ok (writtenState d)) ∧
    (fs.writable = false → writeTestData fs d = .error .ioError) := by
  constructor <;> intro h <;> simp [writeTestData, writtenState, h]

/-- Witness for `writeTestData_overwrite_spec` at concrete states. -/
theorem writeTestData_overwrite_spec_witness :
    writeTestData emptyStore [("k", .vbool true)] =
      .ok (writtenState [("k", .vbool true)]) ∧
    writeTestData { dirExists := true, file := none, writable := false } [] =
      .error .ioError :=
  ⟨(writeTestData_overwrite_spec emptyStore [("k", .vbool true)]).1 rfl,
   (writeTestData_overwrite_spec
      { dirExists := true, file := none, writable := false } []).2 rfl⟩

/-- C2 (counterexample): on a file whose content `JSON.parse` rejects,
`readTestData` throws the parse error rather than returning an empty
mapping — there is no try/catch around `JSON.parse` in the source. -/
theorem read_corrupt_throws_counterexample :
    readTestData corruptStore = .error .parseError ∧
    readTestData corruptStore ≠ .ok [] :=
  ⟨rfl, by intro h; exact Except.noConfusion h⟩

/-- C2 (amended): `readTestData` on a missing file returns the empty mapping
without failing; on a file with corrupted (unparseable) JSON it throws the
`JSON.parse` error instead of returning an empty mapping. -/
theorem readTestData_spec (fs : FS) :
    (fs.file = none → readTestData fs = .ok []) ∧
    (fs.file = some .corrupt → readTestData fs = .error .parseError) := by
  constructor <;> intro h <;> simp [readTestData, h]

/-- Witness for `readTestData_spec` at concrete states. -/
theorem readTestData_spec_witness :
    readTestData emptyStore = .ok [] ∧
    readTestData corruptStore = .error .parseError :=
  ⟨(readTestData_spec emptyStore).1 rfl,
   (readTestData_spec corruptStore).2 rfl⟩

/-- C3 (counterexample): after `write({x: 1})` then `write({y: 2})`, `read`
returns `{y: 2}` only — the key `x` written earlier in the sequence is not
present, contrary to the claim. -/
theorem writeSeq_loses_earlier_keys_counterexample :
    writeSeq emptyStore [[("x", .vnum 1)], [("y", .vnum 2)]] =
      .ok (writtenState [("y", .vnum 2)]) ∧
    readTestData (writtenState [("y", .vnum 2)]) = .ok [("y", .vnum 2)] ∧
    Record.lookup [("y", .vnum 2)] "y" = some (.vnum 2) ∧
    Record.lookup [("y", .vnum 2)] "x" = none :=
  ⟨rfl, rfl, rfl, rfl⟩

/-- C3 (amended): for every sequence of writes on a writable store, `read`
returns exactly the record of the last write — the last write wins wholesale
(so the last record's keys are bound to their written values), and keys
written only in earlier records are gone. -/
theorem read_after_writeSeq (fs : FS) (ds : List Record) (d : Record)
    (hw : fs.writable = true) :
    writeSeq fs (ds ++ [d]) = .ok (writtenState d) ∧
    readTestData (writtenState d) = .ok d := by
  refine ⟨?_, rfl⟩
  induction ds generalizing fs with
  | nil =>
    simp only [List.nil_append, writeSeq, writeTestData, hw, if_true, writtenState]
    rfl
  | cons d0 ds ih =>
    simp only [List.cons_append, writeSeq, writeTestData, hw, if_pos]
    exact ih _ rfl

/-- Witness for `read_after_writeSeq` at a concrete write sequence. -/
theorem read_after_writeSeq_witness :
    writeSeq emptyStore [[("x", .vnum 1)], [("y", .vnum 2)]] =
      .ok (writtenState [("y", .vnum 2)]) ∧
    readTestData (writtenState [("y", .vnum 2)]) = .ok [("y", .vnum 2)] :=
  read_after_writeSeq emptyStore [[("x", .vnum 1)]] [("y", .vnum 2)] rfl

/-- C4: from the empty store, the login test's `write({loginSuccess: true})`
makes a subsequent `read` observe `loginSuccess === true` (so the logout test
does not skip), while a `read` with no prior write observes the empty record,
`loginSuccess === undefined`, and the logout test skips its body. -/
theorem login_outcome_scenario :
    writeTestData emptyStore [("loginSuccess", .vbool true)] =
      .ok (writtenState [("loginSuccess", .vbool true)]) ∧
    readTestData (writtenState [("loginSuccess", .vbool true)]) =
      .ok [("loginSuccess", .vbool true)] ∧
    Record.lookup [("loginSuccess", .vbool true)] "loginSuccess" =
      some (.vbool true) ∧
    logoutSkipped [("loginSuccess", .vbool true)] = false ∧
    readTestData emptyStore = .ok [] ∧
    Record.lookup ([] : Record) "loginSuccess" = none ∧
    logoutSkipped [] = true :=
  ⟨rfl, rfl, rfl, rfl, rfl, rfl, rfl⟩

/-- `runSteps` succeeds exactly when every step in the list succeeds. -/
theorem runSteps_ok_iff (b : Browser) (l : List UIStep) :
    runSteps b l = .ok () ↔ ∀ s ∈ l, b.stepOk s = true := by
  induction l with
  | nil => simp [runSteps]
  | cons s ss ih =>
    cases h : b.stepOk s with
    | false => simp [runSteps, runStep, h]
    | true => simp [runSteps, runStep, h, ih]

/-- C5 (counterexample): with invalid credentials but a login page whose
form interactions all succeed (the realistic browser behavior — a wrong
password does not make selectors disappear), the bootstrap completes
normally and writes a session snapshot, contrary to the claim that it fails
the run and writes no snapshot file. -/
theorem bootstrap_invalid_creds_counterexample :
    invalidEnv.credsValid = false ∧
    (globalSetup invalidEnv okBrowser ⟨false, none⟩).1 = .ok () ∧
    (globalSetup invalidEnv okBrowser ⟨false, none⟩).2.snapshot =
      some demoSession :=
  ⟨rfl, rfl, rfl⟩

/-- C5 (amended): if any UI interaction of the bootstrap throws (selector
not found, navigation timeout), the global setup fails and the snapshot file
is left untouched; if every interaction completes — regardless of whether
the credentials actually authenticated — a snapshot of whatever session
state the browser holds is written, the script performing no verification of
login success or cookie presence. -/
theorem globalSetup_spec (env : BootEnv) (b : Browser) (fs : BootFS) :
    ((∃ s ∈ uiSteps, b.stepOk s = false) →
      ∃ e, globalSetup env b fs = (.error e, fs)) ∧
    ((∀ s ∈ uiSteps, b.stepOk s = true) →
      globalSetup env b fs =
        (.ok (), { storageDirExists := true, snapshot := some b.sessionState })) := by
  constructor
  · rintro ⟨s, hs, hfail⟩
    have hne : runSteps b uiSteps ≠ .ok () := by
      intro h
      have := (runSteps_ok_iff b uiSteps).1 h s hs
      rw [hfail] at this
      exact Bool.noConfusion this
    cases hrun : runSteps b uiSteps with
    | ok u => cases u; exact absurd hrun hne
    | error e => exact ⟨e, by simp [globalSetup, hrun]⟩
  · intro hall
    have hok := (runSteps_ok_iff b uiSteps).2 hall
    simp [globalSetup, hok]

/-- Witness for `globalSetup_spec`: a failing submit click leaves the
filesystem untouched; an all-successful run writes the session snapshot. -/
theorem globalSetup_spec_witness :
    (∃ e, globalSetup invalidEnv failBrowser ⟨false, none⟩ =
      (.error e, ⟨false, none⟩)) ∧
    globalSetup invalidEnv okBrowser ⟨false, none⟩ =
      (.ok (), { storageDirExists := true, snapshot := some demoSession }) :=
  ⟨(globalSetup_spec invalidEnv failBrowser ⟨false, none⟩).1
      ⟨.clickSubmit, by decide, rfl⟩,
   (globalSetup_spec invalidEnv okBrowser ⟨false, none⟩).2 (fun _ _ => rfl)⟩

/-- C6: for `retryAction` with `maxRetries = 3`, an action failing on its
first two invocations and succeeding on the third makes the overall call
succeed after exactly 3 invocations with the intermediate errors suppressed,
while an action failing on all three invocations makes the call propagate
exactly the final attempt's error, again after exactly 3 invocations. -/
theorem retryAction_three {E : Type} (action fail3 : Nat → Except E Unit)
    (e0 e1 : E) (es : Nat → E)
    (h0 : action 0 = .error e0) (h1 : action 1 = .error e1)
    (h2 : action 2 = .ok ()) (hf : ∀ i, i < 3 → fail3 i = .error (es i)) :
    retryAction action 3 = (.ok (), 3) ∧
    retryAction fail3 3 = (.error (es 2), 3) := by
  constructor
  · simp [retryAction, retryLoop, h0, h1, h2]
  · simp [retryAction, retryLoop, hf 0 (by omega), hf 1 (by omega),
      hf 2 (by omega)]

/-- Witness for `retryAction_three` with concrete actions over `E = Nat`. -/
theorem retryAction_three_witness :
    retryAction (fun i => if i < 2 then .error i else .ok ()) 3 = (.ok (), 3) ∧
    retryAction (fun i => (.error i : Except Nat Unit)) 3 = (.error 2, 3) :=
  retryAction_three (fun i => if i < 2 then .error i else .ok ())
    (fun i => .error i) 0 1 (fun i => i) rfl rfl rfl (fun _ _ => rfl)

/-- C7 (counterexample): the `part_007` Playwright config replaces the whole
settings object when the file parses: with a file providing only
`browserMode`, the loaded configuration's `executionMode` is absent rather
than falling back to the default `"parallel"`. -/
theorem settings_no_per_key_fallback_counterexample :
    settingsPart007 (.parsed ⟨none, some "headed", none⟩) =
      ⟨none, some "headed", none⟩ ∧
    (settingsPart007 (.parsed ⟨none, some "headed", none⟩)).executionMode ≠
      some "parallel" :=
  ⟨rfl, by intro h; exact Option.noConfusion h⟩

/-- C7 (amended): `loadSettings` in `utils/setConfig.js` (and the `part_006`
config, which behaves identically) falls back per key to the defaults
`parallel` / `headless` / `staging` on a missing or unparseable file and
spread-merges a parsed file so present keys override only themselves; the
`part_007` config instead keeps its two-key defaults on a missing or
unparseable file but replaces the whole settings object on a successful
parse, with no per-key fallback. -/
theorem loadSettings_spec :
    loadSettings .absent = defaultSettings ∧
    loadSettings .unparseable = defaultSettings ∧
    (∀ p, loadSettings (.parsed p) =
      ⟨p.executionMode.orElse fun _ => some "parallel",
       p.browserMode.orElse fun _ => some "headless",
       p.environment.orElse fun _ => some "staging"⟩) ∧
    (∀ f, settingsPart006 f = loadSettings f) ∧
    settingsPart007 .absent = defaultsPart007 ∧
    settingsPart007 .unparseable = defaultsPart007 ∧
    (∀ p, settingsPart007 (.parsed p) = p) :=
  ⟨rfl, rfl, fun _ => rfl, fun f => by cases f <;> rfl, rfl, rfl, fun _ => rfl⟩

/-- C10: `validateUserData(user)` returns `{valid: true, errors: []}` exactly
when all four required fields are non-falsy (present and nonempty), the
email matches `/^[^\s@]+@[^\s@]+\.[^\s@]+$/` and the password has at least 8
characters; in every other case it returns `valid: false` with a non-empty
error list (and, being a total function of the user object, never throws). -/
theorem validateUserData_spec (u : User) :
    (validateUserData u = ⟨true, []⟩ ↔
      (fieldTruthy u.email = true ∧ fieldTruthy u.password = true ∧
       fieldTruthy u.firstName = true ∧ fieldTruthy u.lastName = true ∧
       emailTest (u.email.getD "") = true ∧
       8 ≤ (u.password.getD "").length)) ∧
    (¬(fieldTruthy u.email = true ∧ fieldTruthy u.password = true ∧
       fieldTruthy u.firstName = true ∧ fieldTruthy u.lastName = true ∧
       emailTest (u.email.getD "") = true ∧
       8 ≤ (u.password.getD "").length) →
      (validateUserData u).valid = false ∧ (validateUserData u).errors ≠ []) := by
  cases he : fieldTruthy u.email <;> cases hp : fieldTruthy u.password <;>
    cases hf : fieldTruthy u.firstName <;> cases hl : fieldTruthy u.lastName <;>
    simp [validateUserData, he, hp, hf, hl]

/-- Witness for `validateUserData_spec` at a concrete valid user. -/
theorem validateUserData_spec_witness :
    validateUserData
        ⟨some "jdoe@example.com", some "password123", some "J", some "D"⟩ =
      ⟨true, []⟩ :=
  (validateUserData_spec
    ⟨some "jdoe@example.com", some "password123", some "J", some "D"⟩).1.2
    ⟨rfl, rfl, rfl, rfl, by decide, by decide⟩

/-- An extracted fixture is ready, and extraction splits the pending list
into the extracted element and a remainder it permutes with. -/
theorem extractReady_spec (order : List String) :
    ∀ (pending : FixtureGraph) (p : String × List String) (rem : FixtureGraph),
      extractReady order pending = some (p, rem) →
      p.2.all (fun d => order.contains d) = true ∧
      List.Perm pending (p :: rem) ∧ p ∈ pending ∧ ∀ q ∈ rem, q ∈ pending := by
  intro pending
  induction pending with
  | nil => intro p rem h; exact absurd h (by simp [extractReady])
  | cons q rest ih =>
    intro p rem h
    by_cases hq : q.2.all (fun d => order.contains d) = true
    · rw [extractReady, if_pos hq] at h
      obtain ⟨rfl, rfl⟩ : q = p ∧ rest = rem := by
        constructor <;> [exact (Prod.mk.injEq _ _ _ _ ▸ congrArg Prod.fst
          (Option.some.injEq _ _ ▸ h : (q, rest) = (p, rem)));
          exact congrArg Prod.snd (Option.some.injEq _ _ ▸ h : (q, rest) = (p, rem))]
      exact ⟨hq, List.Perm.refl _, List.mem_cons_self _ _,
        fun q' hq' => List.mem_cons_of_mem _ hq'⟩
    · rw [extractReady, if_neg hq] at h
      cases hrec : extractReady order rest with
      | none => rw [hrec] at h; exact absurd h (by simp)
      | some pr =>
        rw [hrec] at h
        obtain ⟨p', rem'⟩ := pr
        have hinj : p' = p ∧ q :: rem' = rem := by
          constructor
          · exact congrArg Prod.fst (Option.some.injEq _ _ ▸ h : (p', q :: rem') = (p, rem))
          · exact congrArg Prod.snd (Option.some.injEq _ _ ▸ h : (p', q :: rem') = (p, rem))
        obtain ⟨rfl, rfl⟩ := hinj
        obtain ⟨ha, hperm, hmem, hsub⟩ := ih p' rem' hrec
        refine ⟨ha, ?_, List.mem_cons_of_mem _ hmem, ?_⟩
        · exact (hperm.cons q).trans (List.Perm.swap p' q rem')
        · intro q' hq'
          rcases List.mem_cons.1 hq' with h' | h'
          · exact h' ▸ List.mem_cons_self _ _
          · exact List.mem_cons_of_mem _ (hsub q' h')

/-- In a graph with distinct fixture names, a registered pair is what
`lookup` finds for its name. -/
theorem lookup_of_mem_nodup :
    ∀ (g : FixtureGraph), (g.map Prod.fst).Nodup →
      ∀ p ∈ g, List.lookup p.1 g = some p.2 := by
  intro g
  induction g with
  | nil => intro _ p hp; exact absurd hp (List.not_mem_nil p)
  | cons q rest ih =>
    intro hnd p hp
    rcases List.mem_cons.1 hp with rfl | hp'
    · simp [List.lookup]
    · have hne : q.1 ≠ p.1 := by
        intro hEq
        exact (List.nodup_cons.1 hnd).1
          (hEq ▸ List.mem_map_of_mem Prod.fst hp')
      have : (p.1 == q.1) = false := by
        simp [beq_eq_false_iff_ne]
        exact fun hEq => hne hEq.symm
      simp only [List.lookup, List.map_cons, this]
      exact ih (List.nodup_cons.1 hnd).2 p hp'

/-- A valid setup order stays valid when a fixture whose dependencies are
all already present is appended. -/
theorem topoOrderedFrom_append (g : FixtureGraph) (n : String) :
    ∀ (l pre : List String), TopoOrderedFrom g pre l →
      (∀ d ∈ depsOf g n, d ∈ pre ++ l) → TopoOrderedFrom g pre (l ++ [n]) := by
  intro l
  induction l with
  | nil =>
    intro pre _ hdeps
    exact ⟨fun d hd => by simpa using hdeps d hd, trivial⟩
  | cons m rest ih =>
    intro pre h hdeps
    obtain ⟨h1, h2⟩ := h
    refine ⟨h1, ih (pre ++ [m]) h2 ?_⟩
    intro d hd
    have := hdeps d hd
    simpa [List.append_assoc] using this

/-- Invariant of the resolution loop: from a partial valid order and pending
fixtures drawn from the graph, the loop returns either a complete valid
order or `CycleError`. -/
theorem resolveLoop_spec (g : FixtureGraph)
    (hkeys : (g.map Prod.fst).Nodup) :
    ∀ (fuel : Nat) (pending : FixtureGraph) (order : List String),
      (∀ p ∈ pending, p ∈ g) →
      List.Perm (order ++ pending.map Prod.fst) (g.map Prod.fst) →
      TopoOrdered g order →
      (∃ l, resolveLoop fuel pending order = .ok l ∧
        List.Perm l (g.map Prod.fst) ∧ TopoOrdered g l) ∨
      resolveLoop fuel pending order = .error .cycleError := by
  intro fuel
  induction fuel with
  | zero =>
    intro pending order _ hperm htopo
    by_cases hemp : pending.isEmpty = true
    · left
      refine ⟨order, by simp [resolveLoop, hemp], ?_, htopo⟩
      have : pending = [] := List.isEmpty_iff.1 hemp
      simpa [this] using hperm
    · right; simp [resolveLoop, hemp]
  | succ fuel ih =>
    intro pending order hsub hperm htopo
    by_cases hemp : pending.isEmpty = true
    · left
      refine ⟨order, by simp [resolveLoop, hemp], ?_, htopo⟩
      have : pending = [] := List.isEmpty_iff.1 hemp
      simpa [this] using hperm
    · cases hext : extractReady order pending with
      | none => right; simp [resolveLoop, hemp, hext]
      | some pr =>
        obtain ⟨p, rem⟩ := pr
        obtain ⟨hready, hpperm, hpmem, hremsub⟩ :=
          extractReady_spec order pending p rem hext
        have hstep :
            resolveLoop (fuel + 1) pending order =
              resolveLoop fuel rem (order ++ [p.1]) := by
          simp [resolveLoop, hemp, hext]
        rw [hstep]
        apply ih
        · exact fun q hq => hsub q (hremsub q hq)
        · have hmapped : List.Perm (pending.map Prod.fst)
              (p.1 :: rem.map Prod.fst) := by
            simpa using hpperm.map Prod.fst
          have : List.Perm ((order ++ [p.1]) ++ rem.map Prod.fst)
              (order ++ pending.map Prod.fst) := by
            rw [List.append_assoc]
            exact (hmapped.symm).append_left order
          exact this.trans hperm
        · apply topoOrderedFrom_append
          · exact htopo
          · intro d hd
            have hdeps : depsOf g p.1 = p.2 := by
              unfold depsOf
              rw [lookup_of_mem_nodup g hkeys p (hsub p hpmem)]
              rfl
            rw [hdeps] at hd
            have := (List.all_eq_true.1 hready) d hd
            simpa using List.elem_iff.1 this

/-- C8: the (spec-modelled) fixture resolver is a total function that, on
every dependency graph with distinct fixture names, either succeeds with a
strict total order of all registered fixtures that is a valid topological
order (each fixture's dependencies set up strictly before it) or fails with
`CycleError` — it can never loop forever. -/
theorem resolveFixtures_total (g : FixtureGraph)
    (hkeys : (g.map Prod.fst).Nodup) :
    (∃ l, resolveFixtures g = .ok l ∧ l.Nodup ∧
      List.Perm l (g.map Prod.fst) ∧ TopoOrdered g l) ∨
    resolveFixtures g = .error .cycleError := by
  rcases resolveLoop_spec g hkeys g.length g []
      (fun _ h => h) (by simp) trivial with ⟨l, hok, hperm, htopo⟩ | herr
  · exact .inl ⟨l, hok, (hperm.nodup_iff).2 hkeys, hperm, htopo⟩
  · exact .inr herr

/-- Witness for `resolveFixtures_total` on the `customFixtures.js` graph. -/
theorem resolveFixtures_total_witness :
    (∃ l, resolveFixtures demoGraph = .ok l ∧ l.Nodup ∧
      List.Perm l (demoGraph.map Prod.fst) ∧ TopoOrdered demoGraph l) ∨
    resolveFixtures demoGraph = .error .cycleError :=
  resolveFixtures_total demoGraph (by decide)

/-- A successful `lookup` finds an entry of the list. -/
theorem lookup_mem {α β : Type} [BEq α] [LawfulBEq α] (a : α) (c : β) :
    ∀ (h : List (α × β)), List.lookup a h = some c → (a, c) ∈ h := by
  intro h
  induction h with
  | nil => intro hl; simp [List.lookup] at hl
  | cons e rest ih =>
    intro hl
    rw [List.lookup] at hl
    by_cases hb : (a == e.1) = true
    · simp only [hb, if_true] at hl
      have h1 : a = e.1 := by simpa using hb
      have h2 : e.2 = c := by simpa using hl
      have : (a, c) = e := by cases e; simp_all
      rw [this]
      exact List.mem_cons_self _ _
    · simp only [Bool.not_eq_true] at hb
      rw [hb] at hl
      exact List.mem_cons_of_mem _ (ih hl)

/-- Prepending cells at addresses `≥ n` does not change lookups below `n`. -/
theorem lookup_append_ge {β : Type} (n a : Nat) (hlt : a < n) :
    ∀ (new h : List (Nat × β)), (∀ e ∈ new, n ≤ e.1) →
      List.lookup a (new ++ h) = List.lookup a h := by
  intro new h
  induction new with
  | nil => intro _; rfl
  | cons e rest ih =>
    intro hge
    have hne : (a == e.1) = false := by
      simp only [beq_eq_false_iff_ne]
      intro hEq
      have := hge e (List.mem_cons_self _ _)
      omega
    rw [List.cons_append, List.lookup, hne]
    exact ih fun e' he' => hge e' (List.mem_cons_of_mem _ he')

/-- Replacing the cell at address `a` does not change lookups elsewhere. -/
theorem lookup_mutateAt_ne (a b : Nat) (cell : Cell) (hne : b ≠ a) :
    ∀ (h : Heap), List.lookup b (mutateAt h a cell) = List.lookup b h := by
  intro h
  induction h with
  | nil => rfl
  | cons e rest ih =>
    show List.lookup b ((if e.1 = a then (a, cell) else e) :: mutateAt rest a cell) = _
    by_cases hea : e.1 = a
    · have hb : (b == a) = false := by simpa [beq_eq_false_iff_ne] using hne
      have hb' : (b == e.1) = false := by rw [hea]; exact hb
      rw [if_pos hea, List.lookup, List.lookup, hb, hb']
      exact ih
    · rw [if_neg hea, List.lookup, List.lookup]
      by_cases hb : (b == e.1) = true
      · rw [hb]
      · simp only [Bool.not_eq_true] at hb
        rw [hb]
        exact ih

/-- `mutateAt` preserves the multiset of cell addresses. -/
theorem mutateAt_addrs (a : Nat) (cell : Cell) :
    ∀ (h : Heap), (mutateAt h a cell).map Prod.fst = h.map Prod.fst := by
  intro h
  induction h with
  | nil => rfl
  | cons e rest ih =>
    show ((if e.1 = a then (a, cell) else e) :: mutateAt rest a cell).map Prod.fst = _
    by_cases hea : e.1 = a
    · rw [if_pos hea, List.map_cons, List.map_cons, ih, hea]
    · rw [if_neg hea, List.map_cons, List.map_cons, ih]

/-- A heap value lies in a band exactly when it is bounded on both sides. -/
theorem valWithin_iff (v : HVal) (lo hi : Nat) :
    ValWithin v lo hi ↔ (ValAtLeast v lo ∧ ValBelow v hi) := by
  cases v <;> simp [ValWithin, ValAtLeast, ValBelow]

/-- Reading a scalar needs no fuel. -/
theorem loadVal_prim (h : Heap) (fuel : Nat) (x : JVal) :
    loadVal h fuel (.prim x) = some (.prim x) := by
  cases fuel <;> rfl

/-- Reading a reference with no fuel fails. -/
theorem loadVal_ref_zero (h : Heap) (a : Nat) :
    loadVal h 0 (.ref a) = none := rfl

/-- Reading a reference dereferences the cell and reads its fields with one
unit of fuel less. -/
theorem loadVal_ref_succ (h : Heap) (fuel a : Nat) :
    loadVal h (fuel + 1) (.ref a) =
      match List.lookup a h with
      | none => none
      | some cell => (loadFields h fuel cell).map .obj := rfl

/-- The empty cell reads back as the empty field list. -/
theorem loadFields_nil (h : Heap) (fuel : Nat) :
    loadFields h fuel [] = some [] := rfl

/-- A cell reads back field by field. -/
theorem loadFields_cons (h : Heap) (fuel : Nat) (k : String) (v : HVal)
    (rest : Cell) :
    loadFields h fuel ((k, v) :: rest) =
      match loadVal h fuel v, loadFields h fuel rest with
      | some t, some ts => some ((k, t) :: ts)
      | _, _ => none := rfl

/-- Loading is monotone in the fuel: a load that succeeds keeps succeeding
with more fuel. -/
theorem load_mono (h : Heap) :
    ∀ fuel fuel', fuel ≤ fuel' →
      (∀ v t, loadVal h fuel v = some t → loadVal h fuel' v = some t) ∧
      (∀ cell fs, loadFields h fuel cell = some fs →
        loadFields h fuel' cell = some fs) := by
  intro fuel
  induction fuel with
  | zero =>
    intro fuel' _
    have hval : ∀ v t, loadVal h 0 v = some t → loadVal h fuel' v = some t := by
      intro v t hv
      cases v with
      | prim x => rw [loadVal_prim] at hv ⊢; exact hv
      | ref a => rw [loadVal_ref_zero] at hv; exact Option.noConfusion hv
    refine ⟨hval, ?_⟩
    intro cell
    induction cell with
    | nil => intro fs hfs; rw [loadFields_nil] at hfs ⊢; exact hfs
    | cons kv rest ihc =>
      obtain ⟨k, v⟩ := kv
      intro fs hfs
      rw [loadFields_cons] at hfs ⊢
      cases hv : loadVal h 0 v with
      | none => rw [hv] at hfs; exact absurd hfs (by simp)
      | some t1 =>
        rw [hv] at hfs
        cases hr : loadFields h 0 rest with
        | none => rw [hr] at hfs; exact absurd hfs (by simp)
        | some ts =>
          rw [hr] at hfs
          rw [hval v t1 hv, ihc ts hr]
          exact hfs
  | succ fuel ih =>
    intro fuel' hle
    cases fuel' with
    | zero => omega
    | succ f' =>
      have hle' : fuel ≤ f' := by omega
      have hval : ∀ v t, loadVal h (fuel + 1) v = some t →
          loadVal h (f' + 1) v = some t := by
        intro v t hv
        cases v with
        | prim x => rw [loadVal_prim] at hv ⊢; exact hv
        | ref a =>
          cases hlk : List.lookup a h with
          | none =>
            rw [loadVal_ref_succ, hlk] at hv
            exact absurd hv (by simp)
          | some cell =>
            have hv' : Option.map JTree.obj (loadFields h fuel cell) = some t := by
              rw [loadVal_ref_succ, hlk] at hv; exact hv
            rw [loadVal_ref_succ, hlk]
            show Option.map JTree.obj (loadFields h f' cell) = some t
            cases hfs : loadFields h fuel cell with
            | none => rw [hfs] at hv'; exact absurd hv' (by simp)
            | some ts =>
              rw [(ih f' hle').2 cell ts hfs]
              rw [hfs] at hv'
              exact hv'
      refine ⟨hval, ?_⟩
      intro cell
      induction cell with
      | nil => intro fs hfs; rw [loadFields_nil] at hfs ⊢; exact hfs
      | cons kv rest ihc =>
        obtain ⟨k, v⟩ := kv
        intro fs hfs
        rw [loadFields_cons] at hfs ⊢
        cases hv : loadVal h (fuel + 1) v with
        | none => rw [hv] at hfs; exact absurd hfs (by simp)
        | some t1 =>
          rw [hv] at hfs
          cases hr : loadFields h (fuel + 1) rest with
          | none => rw [hr] at hfs; exact absurd hfs (by simp)
          | some ts =>
            rw [hr] at hfs
            rw [hval v t1 hv, ihc ts hr]
            exact hfs

/-- Frame property of loading: two heaps that agree on all lookups inside an
address band `[lo, hi)` that is closed under references give identical loads
from any root inside the band. -/
theorem load_agree_band (lo hi : Nat) (h h' : Heap)
    (hlk : ∀ a, lo ≤ a → a < hi → List.lookup a h' = List.lookup a h)
    (hcl : ∀ a cell, lo ≤ a → a < hi → List.lookup a h = some cell →
      CellAtLeast cell lo ∧ CellBelow cell hi) :
    ∀ fuel,
      (∀ v, ValWithin v lo hi → loadVal h' fuel v = loadVal h fuel v) ∧
      (∀ cell, CellAtLeast cell lo → CellBelow cell hi →
        loadFields h' fuel cell = loadFields h fuel cell) := by
  intro fuel
  induction fuel with
  | zero =>
    have hval : ∀ v, ValWithin v lo hi → loadVal h' 0 v = loadVal h 0 v := by
      intro v _
      cases v with
      | prim x => rw [loadVal_prim, loadVal_prim]
      | ref a => rw [loadVal_ref_zero, loadVal_ref_zero]
    refine ⟨hval, ?_⟩
    intro cell
    induction cell with
    | nil => intro _ _; rw [loadFields_nil, loadFields_nil]
    | cons kv rest ihc =>
      obtain ⟨k, v⟩ := kv
      intro hal hbl
      rw [loadFields_cons, loadFields_cons]
      rw [hval v ((valWithin_iff v lo hi).2
        ⟨hal (k, v) (List.mem_cons_self _ _), hbl (k, v) (List.mem_cons_self _ _)⟩)]
      rw [ihc (fun e he => hal e (List.mem_cons_of_mem _ he))
        (fun e he => hbl e (List.mem_cons_of_mem _ he))]
  | succ fuel ih =>
    have hval : ∀ v, ValWithin v lo hi →
        loadVal h' (fuel + 1) v = loadVal h (fuel + 1) v := by
      intro v hv
      cases v with
      | prim x => rw [loadVal_prim, loadVal_prim]
      | ref a =>
        obtain ⟨hlo, hhi⟩ : lo ≤ a ∧ a < hi := hv
        rw [loadVal_ref_succ, loadVal_ref_succ, hlk a hlo hhi]
        cases hlook : List.lookup a h with
        | none => rfl
        | some cell =>
          obtain ⟨hca, hcb⟩ := hcl a cell hlo hhi hlook
          show Option.map JTree.obj (loadFields h' fuel cell) =
            Option.map JTree.obj (loadFields h fuel cell)
          rw [ih.2 cell hca hcb]
    refine ⟨hval, ?_⟩
    intro cell
    induction cell with
    | nil => intro _ _; rw [loadFields_nil, loadFields_nil]
    | cons kv rest ihc =>
      obtain ⟨k, v⟩ := kv
      intro hal hbl
      rw [loadFields_cons, loadFields_cons]
      rw [hval v ((valWithin_iff v lo hi).2
        ⟨hal (k, v) (List.mem_cons_self _ _), hbl (k, v) (List.mem_cons_self _ _)⟩)]
      rw [ihc (fun e he => hal e (List.mem_cons_of_mem _ he))
        (fun e he => hbl e (List.mem_cons_of_mem _ he))]

/-- Lower reference bounds weaken downwards. -/
theorem valAtLeast_mono {v : HVal} {m n : Nat} (h : ValAtLeast v n)
    (hmn : m ≤ n) : ValAtLeast v m := by
  cases v with
  | prim x => trivial
  | ref a => exact le_trans hmn h

/-- Upper reference bounds weaken upwards. -/
theorem valBelow_mono {v : HVal} {m n : Nat} (h : ValBelow v m)
    (hmn : m ≤ n) : ValBelow v n := by
  cases v with
  | prim x => trivial
  | ref a => exact lt_of_lt_of_le h hmn

/-- Lower cell bounds weaken downwards. -/
theorem cellAtLeast_mono {c : Cell} {m n : Nat} (h : CellAtLeast c n)
    (hmn : m ≤ n) : CellAtLeast c m :=
  fun kv hkv => valAtLeast_mono (h kv hkv) hmn

/-- Upper cell bounds weaken upwards. -/
theorem cellBelow_mono {c : Cell} {m n : Nat} (h : CellBelow c m)
    (hmn : m ≤ n) : CellBelow c n :=
  fun kv hkv => valBelow_mono (h kv hkv) hmn

mutual

/-- Shape of `storeTree t n h`: the counter grows, the heap is extended by
cells whose addresses and references lie in `[n, n')`, the returned root
lies in `[n, n')`, and on a heap whose addresses are all below `n` the
stored tree loads back intact with any fuel `≥ n'`. -/
theorem storeTree_spec (t : JTree) (n : Nat) (h : Heap) :
    n ≤ (storeTree t n h).2.1 ∧
    (∃ new, (storeTree t n h).2.2 = new ++ h ∧
      ∀ e ∈ new, (n ≤ e.1 ∧ e.1 < (storeTree t n h).2.1) ∧
        CellAtLeast e.2 n ∧ CellBelow e.2 (storeTree t n h).2.1) ∧
    ValWithin (storeTree t n h).1 n (storeTree t n h).2.1 ∧
    (AddrsBelow h n → ∀ fuel, (storeTree t n h).2.1 ≤ fuel →
      loadVal (storeTree t n h).2.2 fuel (storeTree t n h).1 = some t) := by
  cases t with
  | prim x =>
    refine ⟨?_, ⟨[], ?_, by simp⟩, ?_, ?_⟩
    · simp [storeTree]
    · simp [storeTree]
    · simp only [storeTree]; trivial
    · intro _ fuel _
      simp only [storeTree]
      rw [loadVal]
  | obj fs =>
    obtain ⟨hle, ⟨newf, hnewf, hprops⟩, ⟨hca, hcb⟩, hload⟩ :=
      storeFields_spec fs n h
    simp only [storeTree]
    refine ⟨by omega, ?_, ?_, ?_⟩
    · refine ⟨((storeFields fs n h).2.1, (storeFields fs n h).1) :: newf,
        by rw [List.cons_append, hnewf], ?_⟩
      intro e he
      rcases List.mem_cons.1 he with rfl | he'
      · exact ⟨⟨hle, by omega⟩, hca, cellBelow_mono hcb (by omega)⟩
      · obtain ⟨⟨h1, h2⟩, h3, h4⟩ := hprops e he'
        exact ⟨⟨h1, by omega⟩, h3, cellBelow_mono h4 (by omega)⟩
    · exact ⟨hle, by omega⟩
    · intro hbelow fuel hfuel
      cases fuel with
      | zero => omega
      | succ f =>
        rw [loadVal]
        have hlk : List.lookup (storeFields fs n h).2.1
            (((storeFields fs n h).2.1, (storeFields fs n h).1) ::
              (storeFields fs n h).2.2) = some (storeFields fs n h).1 := by
          rw [List.lookup]
          simp
        rw [hlk]
        show Option.map JTree.obj
          (loadFields (((storeFields fs n h).2.1, (storeFields fs n h).1) ::
            (storeFields fs n h).2.2) f (storeFields fs n h).1) = some (.obj fs)
        have hfields : loadFields (storeFields fs n h).2.2 f
            (storeFields fs n h).1 = some fs :=
          hload hbelow f (by omega)
        have hagree := load_agree_band n (storeFields fs n h).2.1
          (storeFields fs n h).2.2
          ((((storeFields fs n h).2.1, (storeFields fs n h).1)) ::
            (storeFields fs n h).2.2)
          (fun a hlo hhi => by
            have : List.lookup a
                ([((storeFields fs n h).2.1, (storeFields fs n h).1)] ++
                  (storeFields fs n h).2.2) =
                List.lookup a (storeFields fs n h).2.2 :=
              lookup_append_ge (storeFields fs n h).2.1 a hhi _ _
                (fun e he => by
                  rcases List.mem_cons.1 he with rfl | he'
                  · exact le_refl _
                  · exact absurd he' (List.not_mem_nil e))
            simpa using this)
          (fun a c hlo hhi hl => by
            have hmem := lookup_mem a c _ hl
            rw [hnewf] at hmem
            rcases List.mem_append.1 hmem with hm | hm
            · obtain ⟨⟨_, _⟩, h3, h4⟩ := hprops (a, c) hm
              exact ⟨h3, h4⟩
            · exact absurd (hbelow (a, c) hm) (by omega))
          f
        rw [hagree.2 (storeFields fs n h).1 hca hcb, hfields]
        rfl

/-- Shape of `storeFields fs n h`, mutually with `storeTree_spec`. -/
theorem storeFields_spec (fs : List (String × JTree)) (n : Nat) (h : Heap) :
    n ≤ (storeFields fs n h).2.1 ∧
    (∃ new, (storeFields fs n h).2.2 = new ++ h ∧
      ∀ e ∈ new, (n ≤ e.1 ∧ e.1 < (storeFields fs n h).2.1) ∧
        CellAtLeast e.2 n ∧ CellBelow e.2 (storeFields fs n h).2.1) ∧
    (CellAtLeast (storeFields fs n h).1 n ∧
      CellBelow (storeFields fs n h).1 (storeFields fs n h).2.1) ∧
    (AddrsBelow h n → ∀ fuel, (storeFields fs n h).2.1 ≤ fuel →
      loadFields (storeFields fs n h).2.2 fuel (storeFields fs n h).1 =
        some fs) := by
  cases fs with
  | nil =>
    refine ⟨le_refl n, ⟨[], rfl, by simp⟩, ⟨?_, ?_⟩, ?_⟩
    · intro kv hkv; exact absurd hkv (List.not_mem_nil kv)
    · intro kv hkv; exact absurd hkv (List.not_mem_nil kv)
    · intro _ fuel _; rfl
  | cons kt rest =>
    obtain ⟨k, t⟩ := kt
    obtain ⟨hle1, ⟨new1, hnew1, hprops1⟩, hwithin1, hload1⟩ :=
      storeTree_spec t n h
    obtain ⟨hle2, ⟨new2, hnew2, hprops2⟩, ⟨hca2, hcb2⟩, hload2⟩ :=
      storeFields_spec rest (storeTree t n h).2.1 (storeTree t n h).2.2
    simp only [storeFields]
    refine ⟨by omega, ?_, ⟨?_, ?_⟩, ?_⟩
    · refine ⟨new2 ++ new1, by rw [hnew2, hnew1, List.append_assoc], ?_⟩
      intro e he
      rcases List.mem_append.1 he with hm | hm
      · obtain ⟨⟨h1, h2⟩, h3, h4⟩ := hprops2 e hm
        exact ⟨⟨by omega, h2⟩, cellAtLeast_mono h3 hle1, h4⟩
      · obtain ⟨⟨h1, h2⟩, h3, h4⟩ := hprops1 e hm
        exact ⟨⟨h1, by omega⟩, h3, cellBelow_mono h4 hle2⟩
    · intro kv hkv
      rcases List.mem_cons.1 hkv with rfl | hkv'
      · exact ((valWithin_iff _ _ _).1 hwithin1).1
      · exact valAtLeast_mono (hca2 kv hkv') hle1
    · intro kv hkv
      rcases List.mem_cons.1 hkv with rfl | hkv'
      · exact valBelow_mono ((valWithin_iff _ _ _).1 hwithin1).2 hle2
      · exact hcb2 kv hkv'
    · intro hbelow fuel hfuel
      have hbelow1 : AddrsBelow (storeTree t n h).2.2 (storeTree t n h).2.1 := by
        intro e he
        rw [hnew1] at he
        rcases List.mem_append.1 he with hm | hm
        · exact (hprops1 e hm).1.2
        · exact lt_of_lt_of_le (hbelow e hm) hle1
      have hrest : loadFields (storeFields rest (storeTree t n h).2.1
          (storeTree t n h).2.2).2.2 fuel
          (storeFields rest (storeTree t n h).2.1 (storeTree t n h).2.2).1 =
          some rest :=
        hload2 hbelow1 fuel hfuel
      have hv1 : loadVal (storeTree t n h).2.2 fuel (storeTree t n h).1 =
          some t :=
        hload1 hbelow fuel (by omega)
      have hagree := load_agree_band n (storeTree t n h).2.1
        (storeTree t n h).2.2
        (storeFields rest (storeTree t n h).2.1 (storeTree t n h).2.2).2.2
        (fun a hlo hhi => by
          rw [hnew2]
          exact lookup_append_ge (storeTree t n h).2.1 a hhi _ _
            (fun e he => (hprops2 e he).1.1))
        (fun a c hlo hhi hl => by
          have hmem := lookup_mem a c _ hl
          rw [hnew1] at hmem
          rcases List.mem_append.1 hmem with hm | hm
          · obtain ⟨⟨_, _⟩, h3, h4⟩ := hprops1 (a, c) hm
            exact ⟨h3, h4⟩
          · exact absurd (hbelow (a, c) hm) (by omega))
        fuel
      rw [loadFields_cons]
      rw [hagree.1 (storeTree t n h).1 hwithin1, hv1, hrest]

end

theorem valAtLeast_zero (v : HVal) : ValAtLeast v 0 := by
  cases v <;> simp [ValAtLeast]

theorem getEntryClone_deep_copy (files : String → Option JTree)
    (fileName typeKey : String) (idx : Nat) (c1 : HVal) (st1 : TDM)
    (hok : getEntryClone files fileName typeKey idx emptyTDM = .ok (c1, st1)) :
    DeepCopyOutcome (getEntryClone files fileName typeKey idx) c1 st1 := by
  cases hfile : files fileName with
  | none => simp [getEntryClone, loadTestData, hfile, emptyTDM, Bind.bind, Except.bind] at hok
  | some t0 =>
    simp only [getEntryClone, loadTestData, hfile, emptyTDM, List.lookup_nil,
      Bind.bind, Except.bind] at hok
    split at hok
    · simp at hok
    rename_i ar hv0
    split at hok
    · simp at hok
    rename_i rootCell hlk1
    split at hok
    · simp at hok
    · simp at hok
    rename_i br hlk2
    split at hok
    · simp at hok
    rename_i arr hlk3
    split at hok
    · simp at hok
    rename_i hemp
    split at hok
    · simp at hok
    rename_i hlen
    split at hok
    · simp at hok
    rename_i kv hget
    split at hok
    · simp at hok
    rename_i t hloadv
    simp only [Except.ok.injEq, Prod.mk.injEq] at hok
    obtain ⟨rfl, rfl⟩ := hok
    -- facts about the two stores
    obtain ⟨hle0, ⟨new0, hnew0, props0⟩, hwithin0, hload0⟩ := storeTree_spec t0 0 []
    obtain ⟨hle2, ⟨new2, hnew2, props2⟩, hwithin2, hload2⟩ :=
      storeTree_spec t (storeTree t0 0 []).2.1 (storeTree t0 0 []).2.2
    have hh1 : (storeTree t0 0 []).2.2 = new0 := by rw [hnew0, List.append_nil]
    have haddr1 : AddrsBelow (storeTree t0 0 []).2.2 (storeTree t0 0 []).2.1 := by
      intro e he; rw [hh1] at he; exact (props0 e he).1.2
    have hcl1 : ∀ b c, 0 ≤ b → b < (storeTree t0 0 []).2.1 →
        List.lookup b (storeTree t0 0 []).2.2 = some c →
        CellAtLeast c 0 ∧ CellBelow c (storeTree t0 0 []).2.1 := by
      intro b c _ _ hl
      have hm := lookup_mem b c _ hl
      rw [hh1] at hm
      exact ⟨(props0 _ hm).2.1, (props0 _ hm).2.2⟩
    have haddr2 : AddrsBelow
        (storeTree t (storeTree t0 0 []).2.1 (storeTree t0 0 []).2.2).2.2
        (storeTree t (storeTree t0 0 []).2.1 (storeTree t0 0 []).2.2).2.1 := by
      intro e he
      rw [hnew2] at he
      rcases List.mem_append.1 he with hm | hm
      · exact (props2 e hm).1.2
      · exact lt_of_lt_of_le (haddr1 e hm) hle2
    refine ⟨(storeTree t0 0 []).2.1, hle2,
      ((valWithin_iff _ _ _).1 hwithin2).1, ?_, ?_⟩
    · -- the clone region references only addresses ≥ n1
      intro a cell hl hge
      have hm := lookup_mem a cell _ hl
      rw [hnew2] at hm
      rcases List.mem_append.1 hm with hmem | hmem
      · exact (props2 _ hmem).2.1
      · exact absurd (haddr1 _ hmem) (by omega)
    · intro a cell' hge
      have hlkband : ∀ b, b < (storeTree t0 0 []).2.1 →
          List.lookup b (mutateAt
            (storeTree t (storeTree t0 0 []).2.1 (storeTree t0 0 []).2.2).2.2
            a cell') = List.lookup b (storeTree t0 0 []).2.2 := by
        intro b hb
        rw [lookup_mutateAt_ne a b cell' (by omega)]
        rw [hnew2]
        exact lookup_append_ge _ b hb _ _ (fun e he => (props2 e he).1.1)
      have hlkband2 : ∀ b, b < (storeTree t0 0 []).2.1 →
          List.lookup b
            (storeTree t (storeTree t0 0 []).2.1 (storeTree t0 0 []).2.2).2.2 =
          List.lookup b (storeTree t0 0 []).2.2 := by
        intro b hb
        rw [hnew2]
        exact lookup_append_ge _ b hb _ _ (fun e he => (props2 e he).1.1)
      have hband := load_agree_band 0 (storeTree t0 0 []).2.1
        (storeTree t0 0 []).2.2
        (mutateAt (storeTree t (storeTree t0 0 []).2.1
          (storeTree t0 0 []).2.2).2.2 a cell')
        (fun b _ hb => hlkband b hb) hcl1
      have hband2 := load_agree_band 0 (storeTree t0 0 []).2.1
        (storeTree t0 0 []).2.2
        (storeTree t (storeTree t0 0 []).2.1 (storeTree t0 0 []).2.2).2.2
        (fun b _ hb => hlkband2 b hb) hcl1
      constructor
      · -- cached roots load unchanged
        intro name v hl
        have hm := lookup_mem name v _ hl
        have hv : v = (storeTree t0 0 []).1 := by
          simp at hm
          exact hm.2
        subst hv
        rw [(hband ((storeTree t (storeTree t0 0 []).2.1
          (storeTree t0 0 []).2.2).2.1)).1 _ hwithin0]
        rw [(hband2 ((storeTree t (storeTree t0 0 []).2.1
          (storeTree t0 0 []).2.2).2.1)).1 _ hwithin0]
      · -- the repeated call succeeds and returns an equal tree
        have har : ar < (storeTree t0 0 []).2.1 := by
          rw [hv0] at hwithin0
          exact hwithin0.2
        have hroot2 : List.lookup ar (mutateAt
            (storeTree t (storeTree t0 0 []).2.1 (storeTree t0 0 []).2.2).2.2
            a cell') = some rootCell := by
          rw [hlkband ar har]; exact hlk1
        have hbr : br < (storeTree t0 0 []).2.1 := by
          have hmroot := lookup_mem ar rootCell _ hlk1
          rw [hh1] at hmroot
          exact (props0 _ hmroot).2.2 _ (lookup_mem typeKey (.ref br) rootCell hlk2)
        have harr2 : List.lookup br (mutateAt
            (storeTree t (storeTree t0 0 []).2.1 (storeTree t0 0 []).2.2).2.2
            a cell') = some arr := by
          rw [hlkband br hbr]; exact hlk3
        have hkvmem : kv ∈ arr := List.get?_mem hget
        have hkvb : ValBelow kv.2 (storeTree t0 0 []).2.1 := by
          have hmarr := lookup_mem br arr _ hlk3
          rw [hh1] at hmarr
          exact (props0 _ hmarr).2.2 kv hkvmem
        have hload_m : loadVal (mutateAt
            (storeTree t (storeTree t0 0 []).2.1 (storeTree t0 0 []).2.2).2.2
            a cell')
            (storeTree t (storeTree t0 0 []).2.1 (storeTree t0 0 []).2.2).2.1
            kv.2 = some t := by
          rw [(hband ((storeTree t (storeTree t0 0 []).2.1
            (storeTree t0 0 []).2.2).2.1)).1 kv.2
            ((valWithin_iff _ _ _).2 ⟨valAtLeast_zero _, hkvb⟩)]
          exact (load_mono _ _ _ hle2).1 kv.2 t hloadv
        have hcache2 : List.lookup fileName [(fileName, HVal.ref ar)] =
            some (HVal.ref ar) := by simp [List.lookup]
        refine ⟨(storeTree t
            (storeTree t (storeTree t0 0 []).2.1 (storeTree t0 0 []).2.2).2.1
            (mutateAt (storeTree t (storeTree t0 0 []).2.1
              (storeTree t0 0 []).2.2).2.2 a cell')).1,
          ⟨(storeTree t
            (storeTree t (storeTree t0 0 []).2.1 (storeTree t0 0 []).2.2).2.1
            (mutateAt (storeTree t (storeTree t0 0 []).2.1
              (storeTree t0 0 []).2.2).2.2 a cell')).2.2,
           (storeTree t
            (storeTree t (storeTree t0 0 []).2.1 (storeTree t0 0 []).2.2).2.1
            (mutateAt (storeTree t (storeTree t0 0 []).2.1
              (storeTree t0 0 []).2.2).2.2 a cell')).2.1,
           [(fileName, (storeTree t0 0 []).1)]⟩, ?_, ?_⟩
        · simp only [getEntryClone, loadTestData, hcache2, Bind.bind, Except.bind,
            hv0, hroot2, hlk2, harr2, hget, hload_m, hemp, hlen]
          simp
        · obtain ⟨hle3, ⟨new3, hnew3, props3⟩, hwithin3, hload3⟩ :=
            storeTree_spec t
              (storeTree t (storeTree t0 0 []).2.1 (storeTree t0 0 []).2.2).2.1
              (mutateAt (storeTree t (storeTree t0 0 []).2.1
                (storeTree t0 0 []).2.2).2.2 a cell')
          have haddrm : AddrsBelow
              (mutateAt (storeTree t (storeTree t0 0 []).2.1
                (storeTree t0 0 []).2.2).2.2 a cell')
              (storeTree t (storeTree t0 0 []).2.1 (storeTree t0 0 []).2.2).2.1 := by
            intro e he
            have hmm : e.1 ∈ (mutateAt (storeTree t (storeTree t0 0 []).2.1
                (storeTree t0 0 []).2.2).2.2 a cell').map Prod.fst :=
              List.mem_map_of_mem _ he
            rw [mutateAt_addrs] at hmm
            obtain ⟨e2, he2, heq2⟩ := List.mem_map.1 hmm
            rw [← heq2]
            exact haddr2 e2 he2
          rw [hload3 haddrm _ (le_refl _), hload2 haddr1 _ (le_refl _)]


theorem getUser_demo_eq :
    getUser demoFiles "valid" 0 emptyTDM =
      .ok (.ref 3, ⟨demoHeap, 4, [("users", .ref 2)]⟩) := rfl

/-- C9: `getUser` and `getProduct` return deep copies.  Whenever a call from
a fresh manager succeeds, the returned object lives entirely in heap
addresses disjoint from (above) the cached data, that region is closed under
references, and replacing the cell at any such address — any mutation a
caller can perform through the returned object — leaves the cached objects'
loaded values unchanged and makes a repeated call with the same arguments
succeed with a structurally identical tree. -/
theorem getUser_getProduct_deep_copy :
    (∀ files type idx c1 st1,
      getUser files type idx emptyTDM = .ok (c1, st1) →
      DeepCopyOutcome (getUser files type idx) c1 st1) ∧
    (∀ files type idx c1 st1,
      getProduct files type idx emptyTDM = .ok (c1, st1) →
      DeepCopyOutcome (getProduct files type idx) c1 st1) :=
  ⟨fun files type idx c1 st1 hok =>
      getEntryClone_deep_copy files "users" (userTypeKey type) idx c1 st1 hok,
   fun files type idx c1 st1 hok =>
      getEntryClone_deep_copy files "products" (productTypeKey type) idx c1 st1
        hok⟩

/-- Witness for `getUser_getProduct_deep_copy` on the demonstration users
file. -/
theorem getUser_deep_copy_witness :
    getUser demoFiles "valid" 0 emptyTDM =
      .ok (.ref 3, ⟨demoHeap, 4, [("users", .ref 2)]⟩) ∧
    DeepCopyOutcome (getUser demoFiles "valid" 0) (.ref 3)
      ⟨demoHeap, 4, [("users", .ref 2)]⟩ :=
  ⟨getUser_demo_eq,
   getUser_getProduct_deep_copy.1 demoFiles "valid" 0 (.ref 3)
     ⟨demoHeap, 4, [("users", .ref 2)]⟩ getUser_demo_eq⟩

end QA
